import Mathlib

/-!
# Verification of the party-games drawing-and-guessing server

A shallow embedding of the per-room game engine of the `party-games`
repository (Colyseus-based Pictionary server), together with proofs about
its message handlers, controllers and word-bank helpers.

Embedded source files:
* `packages/server/src/rooms/GameRoom.ts` — message handlers (`startGame`,
  `chat`, `guess` guards);
* `packages/server/src/controllers/RoundController.ts` — the phase machine
  (`startNextRound`, `selectWord`, `processGuess`, `endRound`,
  `startSuddenDeath`, `endSuddenDeathWin`, `clearTimers`);
* `packages/server/src/controllers/ScoreController.ts` — `awardPoint`,
  `checkWinCondition`, and the FFA extension `awardPlayerPoint`,
  `checkFFAWinCondition`;
* `packages/server/src/controllers/TeamController.ts` — roster operations
  (`getNextDrawer`, `assignRoles`, FFA pool, `canStartGame`,
  `handleDisconnect`);
* `packages/shared/src/words.ts` — the word bank, `generateHint`,
  `revealLetter`.

Modelling conventions: JavaScript strings are Lean `String`s and the JS
string primitives used by the source (`trim`, `toLowerCase`, `split`,
`join`) are embedded as explicit `List Char` functions below.  Randomness
(`Math.random`) is an oracle parameter: every randomized choice takes the
chosen index (or the list of picked words) as an argument.  Timers are
modelled symbolically: each arming is recorded as a `TimerKind` in the
result of the operation that armed it, the controller's two handle slots
(`timer`, `hintTimer`) hold `Option TimerKind`, and deferred `setTimeout`
callbacks are reified as `Deferred` values that `runDeferred` executes.
Wall-clock time (`Date.now()`) is a `Nat` parameter.
-/

namespace PartyGames

/-! ## JavaScript string primitives -/

/-- JS whitespace test for the characters relevant to `String.prototype.trim`
on this code base (space, tab, newline, carriage return). -/
def jsIsWs (c : Char) : Bool :=
  c = ' ' || c = '\t' || c = '\n' || c = '\r'

/-- Embedding of `String.prototype.trim`: drop whitespace from both ends. -/
def jsTrim (s : String) : String :=
  ⟨((s.data.dropWhile jsIsWs).reverse.dropWhile jsIsWs).reverse⟩

/-- ASCII lower-casing of one character, as `String.prototype.toLowerCase`
acts on the ASCII strings of this code base. -/
def jsLowerChar (c : Char) : Char :=
  if 'A' ≤ c ∧ c ≤ 'Z' then Char.ofNat (c.toNat + 32) else c

/-- Embedding of `String.prototype.toLowerCase`. -/
def jsToLower (s : String) : String :=
  ⟨s.data.map jsLowerChar⟩

/-- Embedding of `String.prototype.split(' ')` on the character list:
split at every single space, keeping empty segments (JS semantics:
`"a  b".split(' ') = ["a","","b"]`). -/
def jsSplitSpace : List Char → List String
  | [] => [""]
  | ' ' :: rest => "" :: jsSplitSpace rest
  | c :: rest =>
    match jsSplitSpace rest with
    | [] => [String.singleton c]
    | s :: ss => (String.singleton c ++ s) :: ss

/-- Embedding of `Array.prototype.join(' ')`. -/
def jsJoinSpace : List String → String
  | [] => ""
  | [s] => s
  | s :: rest => s ++ " " ++ jsJoinSpace rest

/-! ## Word bank (`packages/shared/src/words.ts`) -/

/-- One word category of the bank: key and word list (label and emoji are
irrelevant to the claims and omitted). -/
structure WordCategory where
  key : String
  words : List String
deriving DecidableEq, Repr

/-- Embedding of `WORD_CATEGORIES` from `words.ts`, all seven categories verbatim. -/
def WORD_CATEGORIES : List WordCategory :=
  [⟨"animals",
    ["elephant", "penguin", "giraffe", "octopus", "kangaroo",
     "dolphin", "butterfly", "chameleon", "flamingo", "hedgehog",
     "peacock", "jellyfish", "sloth", "panda", "lobster",
     "parrot", "seahorse", "gorilla", "koala", "crocodile",
     "owl", "shark", "turtle", "zebra", "bat",
     "spider", "snail", "eagle", "fox", "whale"]⟩,
   ⟨"movies",
    ["superhero", "spaceship", "dinosaur", "wizard", "pirate",
     "zombie", "alien", "robot", "detective", "mermaid",
     "vampire", "cowboy", "ninja", "gladiator", "astronaut",
     "monster", "treasure", "castle", "jungle", "volcano",
     "submarine", "time machine", "haunted house", "lightsaber", "magic carpet",
     "popcorn", "red carpet", "spotlight", "clapper board", "costume"]⟩,
   ⟨"actions",
    ["swimming", "juggling", "skydiving", "cooking", "dancing",
     "surfing", "painting", "fishing", "sneezing", "yawning",
     "climbing", "skateboarding", "bowling", "singing", "gardening",
     "sleeping", "running", "laughing", "diving", "boxing",
     "skiing", "rowing", "knitting", "meditating", "wrestling",
     "typing", "waving", "stretching", "hiking", "jumping"]⟩,
   ⟨"objects",
    ["umbrella", "telescope", "bicycle", "headphones", "candle",
     "scissors", "backpack", "compass", "microphone", "hourglass",
     "anchor", "balloon", "camera", "diamond", "envelope",
     "flashlight", "guitar", "hammer", "igloo", "jigsaw",
     "kite", "ladder", "magnifying glass", "notebook", "parachute",
     "quill", "rocket", "stopwatch", "trophy", "windmill"]⟩,
   ⟨"food",
    ["pizza", "sushi", "hamburger", "ice cream", "pancake",
     "tacos", "spaghetti", "cupcake", "watermelon", "pretzel",
     "burrito", "donut", "lobster", "pineapple", "waffle",
     "smoothie", "popcorn", "sandwich", "chocolate", "cherry pie",
     "milkshake", "hot dog", "croissant", "avocado", "dumpling",
     "fortune cookie", "gingerbread", "nachos", "ramen", "strawberry"]⟩,
   ⟨"places",
    ["beach", "mountain", "library", "hospital", "airport",
     "museum", "lighthouse", "playground", "stadium", "temple",
     "waterfall", "desert", "island", "cave", "bridge",
     "castle", "farm", "forest", "galaxy", "harbor",
     "iceberg", "jungle", "kingdom", "lagoon", "maze",
     "oasis", "pyramid", "reef", "swamp", "volcano"]⟩,
   ⟨"professions",
    ["firefighter", "astronaut", "chef", "detective", "pilot",
     "surgeon", "magician", "lifeguard", "archaeologist", "conductor",
     "blacksmith", "carpenter", "dentist", "electrician", "farmer",
     "goalkeeper", "jeweler", "mechanic", "plumber", "scientist",
     "teacher", "veterinarian", "waiter", "zookeeper", "clown",
     "ballerina", "drummer", "judge", "knight", "sailor"]⟩]

/-- Every word of the bank, across all categories. -/
def allBankWords : List String :=
  WORD_CATEGORIES.flatMap (fun cat => cat.words)

/-- Embedding of `getWordsForCategory` from `words.ts`: the given category's words, or
the whole bank for `'mixed'` or an unknown key. -/
def getWordsForCategory (categoryKey : String) : List String :=
  if categoryKey = "mixed" then allBankWords
  else
    match WORD_CATEGORIES.find? (fun cat => cat.key = categoryKey) with
    | some cat => cat.words
    | none => allBankWords

/-- The picking loop of `pickRandomWords`: at each step the next oracle
entry `r` selects index `r % pool.length` (the code draws
`floor(random * pool.length)`, a value in the same range) and the chosen
word is removed from the pool (`splice`). -/
def pickWordsGo (pool : List String) : Nat → List Nat → List String
  | 0, _ => []
  | _ + 1, [] => []
  | n + 1, r :: rs =>
    if pool.isEmpty then []
    else
      let idx := r % pool.length
      pool.getD idx "" :: pickWordsGo (pool.eraseIdx idx) n rs

/-- Embedding of `pickRandomWords` from `words.ts`, with `Math.random` replaced by the
oracle `rs`. -/
def pickRandomWords (categoryKey : String) (count : Nat) (rs : List Nat) : List String :=
  pickWordsGo (getWordsForCategory categoryKey) count rs

/-- Embedding of `generateHint` from `words.ts`: each letter becomes `_`, each space a
double space, joined by single spaces. -/
def generateHint (word : String) : String :=
  jsJoinSpace (word.data.map (fun c => if c = ' ' then "  " else "_"))

/-- The first loop of `revealLetter`: collect the word positions whose hint
token (under the source's `hintIdx` walk) is still `"_"`. -/
def hiddenPositions : List Char → Nat → Nat → List String → List Nat
  | [], _, _, _ => []
  | c :: rest, i, hintIdx, hints =>
    if c = ' ' then hiddenPositions rest (i + 1) (hintIdx + 1) hints
    else if hints.getD hintIdx "" = "_" then
      i :: hiddenPositions rest (i + 1) (hintIdx + 1) hints
    else hiddenPositions rest (i + 1) (hintIdx + 1) hints

/-- The second loop of `revealLetter`: walk to word position `revealIdx`
with the same `hintIdx` bookkeeping and overwrite that hint token with the
true letter. -/
def writeReveal : List Char → Nat → Nat → Nat → List String → List String
  | [], _, _, _, hints => hints
  | c :: rest, i, hintIdx, revealIdx, hints =>
    if c = ' ' then writeReveal rest (i + 1) (hintIdx + 1) revealIdx hints
    else if i = revealIdx then hints.set hintIdx (String.singleton c)
    else writeReveal rest (i + 1) (hintIdx + 1) revealIdx hints

/-- Embedding of `revealLetter` from `words.ts`.  The random choice among the hidden
positions is the oracle `k`, taken modulo the number of hidden positions
(the code draws `hidden[floor(random * hidden.length)]`). -/
def revealLetter (word currentHint : String) (k : Nat) : String :=
  let hintChars := jsSplitSpace currentHint.data
  let wordChars := word.data
  let hidden := hiddenPositions wordChars 0 0 hintChars
  if hidden = [] then currentHint
  else
    let revealIdx := hidden.getD (k % hidden.length) 0
    jsJoinSpace (writeReveal wordChars 0 0 revealIdx hintChars)

/-! ## Data model (`GameState.ts`, shared types) -/

/-- Embedding of `GamePhase` from the shared types. -/
inductive Phase
  | lobby
  | modeSelect
  | teamSelect
  | wordSelect
  | drawing
  | roundEnd
  | gameOver
deriving DecidableEq, Repr

/-- Embedding of `GameMode` from the shared types. -/
inductive GameMode
  | teams
  | ffa
deriving DecidableEq, Repr

/-- Embedding of `WinMode` from the shared types. -/
inductive WinMode
  | points
  | rounds
deriving DecidableEq, Repr

/-- Embedding of `PlayerRole` from the shared types. -/
inductive Role
  | drawer
  | guesser
  | opponent
  | spectator
deriving DecidableEq, Repr

/-- Embedding of `PlayerSchema`.  `teamIndex` is `Int` because the source uses `-1` for
unassigned/spectator. -/
structure Player where
  sessionId : String := ""
  nickname : String := ""
  avatarColor : String := ""
  teamIndex : Int := -1
  role : Role := Role.spectator
  isHost : Bool := false
  isConnected : Bool := true
deriving DecidableEq, Repr

/-- Embedding of `TeamSchema`.  Scores are only ever written as `0` or incremented, so
`Nat` is the faithful value type. -/
structure Team where
  name : String := ""
  color : String := ""
  score : Nat := 0
  drawerQueue : List String := []
deriving DecidableEq, Repr

/-- Embedding of `GameSettingsSchema` plus the shared `gameMode` field. -/
structure GameSettings where
  gameMode : GameMode := GameMode.teams
  winMode : WinMode := WinMode.points
  targetScore : Nat := 10
  totalRounds : Nat := 10
  drawTime : Nat := 75
  wordCategory : String := "mixed"
deriving DecidableEq, Repr

/-- Embedding of `GuessEntrySchema`. -/
structure GuessEntry where
  playerId : String := ""
  nickname : String := ""
  text : String := ""
  isCorrect : Bool := false
  timestamp : Nat := 0
deriving DecidableEq, Repr

/-- Embedding of `ChatEntrySchema`. -/
structure ChatEntry where
  playerId : String := ""
  nickname : String := ""
  text : String := ""
  timestamp : Nat := 0
deriving DecidableEq, Repr

/-- The replicated `GameState` schema.  `players` and `playerScores` are
insertion-ordered maps (`MapSchema`, JS `Map`), embedded as association
lists. -/
structure GameState where
  roomCode : String := ""
  phase : Phase := Phase.lobby
  players : List (String × Player) := []
  teams : List Team := []
  currentRound : Nat := 0
  settings : GameSettings := {}
  currentDrawer : String := ""
  wordHint : String := ""
  timeRemaining : Int := 0
  activeTeamIndex : Nat := 0
  guesses : List GuessEntry := []
  chatMessages : List ChatEntry := []
  winningTeamIndex : Int := -1
  playerScores : List (String × Nat) := []
  winnerSessionIds : List String := []
  isSuddenDeath : Bool := false
deriving DecidableEq, Repr

/-- Embedding of `Map.get`: first binding of the key in an association list. -/
def assocGet {α : Type} (l : List (String × α)) (k : String) : Option α :=
  (l.find? (fun p => p.1 = k)).map Prod.snd

/-- Embedding of `Map.set`: overwrite in place if the key exists (JS `Map` keeps the
original insertion position), else append. -/
def assocSet {α : Type} : List (String × α) → String → α → List (String × α)
  | [], k, v => [(k, v)]
  | (k', v') :: rest, k, v =>
    if k' = k then (k, v) :: rest else (k', v') :: assocSet rest k v

/-- Apply `f` to the element at index `i`, if the index is in range. -/
def modifyIdx {α : Type} : List α → Nat → (α → α) → List α
  | [], _, _ => []
  | a :: rest, 0, f => f a :: rest
  | a :: rest, n + 1, f => a :: modifyIdx rest n f

/-! ## Messages, timers and deferred callbacks -/

/-- The server→client messages the round controller and room emit that are
relevant to the claims. -/
inductive Msg
  | wordChoices (words : List String)
  | secretWord (word : String)
  | draw
  | clearCanvasMsg
  | undo
  | correctGuess (playerId nickname word : String)
  | roundResult (word : String) (wasCorrect : Bool) (teamIndex : Nat) (teamName : String)
  | error (message : String)
deriving DecidableEq, Repr

/-- A message either broadcast to every client or sent to one session. -/
inductive Emission
  | broadcast (m : Msg)
  | directed (sessionId : String) (m : Msg)
deriving DecidableEq, Repr

/-- The timers the server arms: the 15s word-choice auto-pick, the 1s tick,
the 20s hint reveal, the 5s round-end delay and the 500ms start delay. -/
inductive TimerKind
  | autoPick
  | tick
  | hint
  | roundEndDelay
  | startGameDelay
deriving DecidableEq, Repr

/-- The bodies of the `setTimeout` callbacks scheduled by `endRound`,
chosen at scheduling time in the source. -/
inductive Deferred
  | ffaGameOver (winners : List String)
  | suddenDeath (winners : List String)
  | teamsGameOver (winner : Int)
  | nextRound
deriving DecidableEq, Repr

/-- The round controller's private fields (`RoundController.ts`): the two
timer handle slots, the secret word and the cached word choices. -/
structure RoundCtrl where
  timer : Option TimerKind := none
  hintTimer : Option TimerKind := none
  currentWord : String := ""
  wordChoicesCache : List String := []
deriving DecidableEq, Repr

/-- Result of one controller operation: the controller and state after it,
the messages it sent, the timers it armed during the call, and the deferred
`setTimeout` callbacks it scheduled. -/
structure Step where
  rc : RoundCtrl
  st : GameState
  out : List Emission := []
  armed : List TimerKind := []
  deferred : List Deferred := []
deriving DecidableEq, Repr

/-! ## ScoreController (`ScoreController.ts`) -/

/-- Embedding of `awardPoint`: increment the score of team `teamIndex`, if it exists. -/
def awardPoint (st : GameState) (teamIndex : Nat) : GameState :=
  { st with teams := modifyIdx st.teams teamIndex (fun t => { t with score := t.score + 1 }) }

/-- Embedding of `awardPlayerPoint`: `playerScores[sessionId] = (playerScores[sessionId] ?? 0) + 1`. -/
def awardPlayerPoint (st : GameState) (sessionId : String) : GameState :=
  { st with playerScores :=
      assocSet st.playerScores sessionId ((assocGet st.playerScores sessionId).getD 0 + 1) }

/-- Embedding of `resetScores`: zero every team score. -/
def resetScores (st : GameState) : GameState :=
  { st with teams := st.teams.map (fun t => { t with score := 0 }) }

/-- Embedding of `resetPlayerScores`: clear the FFA score map. -/
def resetPlayerScores (st : GameState) : GameState :=
  { st with playerScores := [] }

/-- The points-mode loop of `checkWinCondition`: first index whose score
reaches the target, else `-1`. -/
def pointsScan (target : Nat) : List Team → Nat → Int
  | [], _ => -1
  | t :: rest, i => if t.score ≥ target then (i : Int) else pointsScan target rest (i + 1)

/-- The rounds-mode loop of `checkWinCondition`: running strict-greater scan
with `maxScore` and `winnerIdx` both starting at `-1`. -/
def winnerScanGo : List Nat → Nat → Int → Int → Int
  | [], _, _, best => best
  | s :: rest, i, maxS, best =>
    if (s : Int) > maxS then winnerScanGo rest (i + 1) (s : Int) (i : Int)
    else winnerScanGo rest (i + 1) maxS best

/-- The rounds-mode winner scan over the team scores. -/
def winnerScan (scores : List Nat) : Int :=
  winnerScanGo scores 0 (-1) (-1)

/-- Embedding of `checkWinCondition` (teams): points mode returns the first team at the
target; rounds mode, once `currentRound ≥ totalRounds`, returns the
strict-greater scan winner; otherwise `-1`. -/
def checkWinCondition (st : GameState) : Int :=
  match st.settings.winMode with
  | WinMode.points => pointsScan st.settings.targetScore st.teams 0
  | WinMode.rounds =>
    if st.currentRound ≥ st.settings.totalRounds then
      winnerScan (st.teams.map (fun t => t.score))
    else -1

/-- The `maxScore` fold of `checkFFAWinCondition`: running maximum starting
at `0`, updated on strict increase. -/
def ffaMax (scores : List (String × Nat)) : Nat :=
  scores.foldl (fun m p => if p.2 > m then p.2 else m) 0

/-- Embedding of `checkFFAWinCondition`: gate on the win mode (points: max below target;
rounds: round count not reached) and on `maxScore == 0`, else collect every
session id whose score equals the maximum, in map order. -/
def checkFFAWinCondition (st : GameState) : List String :=
  let maxScore := ffaMax st.playerScores
  let gated : Bool :=
    match st.settings.winMode with
    | WinMode.points => maxScore < st.settings.targetScore
    | WinMode.rounds => st.currentRound < st.settings.totalRounds
  if gated then []
  else if maxScore = 0 then []
  else (st.playerScores.filter (fun p => p.2 = maxScore)).map Prod.fst

/-! ## TeamController (`TeamController.ts`) -/

/-- Embedding of `FFA_TEAM_INDEX`: in FFA mode the global drawer queue is `teams[0]`. -/
def FFA_TEAM_INDEX : Nat := 0

/-- Embedding of `getNextDrawer`: pop the front of the team's queue, push it to the
tail, and return it; `none` if the team is missing or its queue empty.
Returns the updated state alongside the drawer. -/
def getNextDrawer (st : GameState) (teamIndex : Nat) : Option String × GameState :=
  match st.teams.get? teamIndex with
  | none => (none, st)
  | some t =>
    match t.drawerQueue with
    | [] => (none, st)
    | d :: rest =>
      (some d,
       { st with teams :=
          modifyIdx st.teams teamIndex (fun t => { t with drawerQueue := rest ++ [d] }) })

/-- Embedding of `assignRoles` (teams mode): drawer by session id, guesser on the active
team, opponent on another team, spectator otherwise. -/
def assignRoles (st : GameState) (drawerSessionId : String) (activeTeamIndex : Nat) : GameState :=
  { st with players := st.players.map (fun p =>
      if p.2.sessionId = drawerSessionId then (p.1, { p.2 with role := Role.drawer })
      else if p.2.teamIndex = (activeTeamIndex : Int) then (p.1, { p.2 with role := Role.guesser })
      else if p.2.teamIndex ≥ 0 then (p.1, { p.2 with role := Role.opponent })
      else (p.1, { p.2 with role := Role.spectator })) }

/-- Embedding of `initFFA`: clear the teams and insert the single FFA pool at index 0;
every connected player gets `teamIndex := 0` and joins the pool queue in
map order. -/
def initFFA (st : GameState) : GameState :=
  let connected := st.players.filter (fun p => p.2.isConnected)
  let pool : Team :=
    { name := "FFA", color := "#ffffff", score := 0
      drawerQueue := connected.map (fun p => p.2.sessionId) }
  { st with
      teams := [pool]
      players := st.players.map (fun p =>
        if p.2.isConnected then (p.1, { p.2 with teamIndex := (FFA_TEAM_INDEX : Int) }) else p) }

/-- Embedding of `assignFFARoles`: drawer for the matching session id, guesser for every
other pool member, spectator otherwise. -/
def assignFFARoles (st : GameState) (drawerSessionId : String) : GameState :=
  { st with players := st.players.map (fun p =>
      if p.2.sessionId = drawerSessionId then (p.1, { p.2 with role := Role.drawer })
      else if p.2.teamIndex = (FFA_TEAM_INDEX : Int) then (p.1, { p.2 with role := Role.guesser })
      else (p.1, { p.2 with role := Role.spectator })) }

/-- Embedding of `getNextFFADrawer`: round-robin on the pool queue at `teams[0]`. -/
def getNextFFADrawer (st : GameState) : Option String × GameState :=
  getNextDrawer st FFA_TEAM_INDEX

/-- Embedding of `getSuddenDeathDrawer`: first connected pool member not among the tied
ids, else fall back to the first tied id. -/
def getSuddenDeathDrawer (st : GameState) (tiedIds : List String) : Option String :=
  match st.teams.get? FFA_TEAM_INDEX with
  | none => none
  | some pool =>
    match pool.drawerQueue.find? (fun id =>
        ¬ tiedIds.contains id ∧ ((assocGet st.players id).map Player.isConnected).getD false) with
    | some id => some id
    | none => tiedIds.head?

/-- Embedding of `canStartGame`: FFA needs at least 2 connected players; teams mode
needs at least 2 teams with a non-empty queue (the inner per-team loop of
the source is kept verbatim, its condition `0 < len < 1` included). -/
def canStartGame (st : GameState) : Bool × String :=
  match st.settings.gameMode with
  | GameMode.ffa =>
    if (st.players.filter (fun p => p.2.isConnected)).length < 2 then
      (false, "At least 2 players are needed to start.")
    else (true, "")
  | GameMode.teams =>
    if (st.teams.filter (fun t => t.drawerQueue.length > 0)).length < 2 then
      (false, "At least 2 teams need players to start.")
    else
      match st.teams.find? (fun t => t.drawerQueue.length > 0 ∧ t.drawerQueue.length < 1) with
      | some t => (false, t.name ++ " needs at least 1 player.")
      | none => (true, "")

/-- Embedding of `handleDisconnect`: flip the player's `isConnected` flag to false. -/
def handleDisconnect (st : GameState) (sessionId : String) : GameState :=
  { st with players := st.players.map (fun p =>
      if p.1 = sessionId then (p.1, { p.2 with isConnected := false }) else p) }

/-! ## RoundController (`RoundController.ts`) -/

/-- Embedding of `clearTimers`: cancel and null out both stored handles. -/
def clearTimers (rc : RoundCtrl) : RoundCtrl :=
  { rc with timer := none, hintTimer := none }

/-- Embedding of `endSuddenDeathWin`: cancel timers, leave sudden death, record the
single winner, game over. -/
def endSuddenDeathWin (rc : RoundCtrl) (st : GameState) (winnerSessionId : String) : Step :=
  { rc := clearTimers rc
    st := { st with
              isSuddenDeath := false
              winnerSessionIds := [winnerSessionId]
              phase := Phase.gameOver } }

/-- Embedding of `endRound`: cancel timers, move to round-end, broadcast `roundResult`,
and schedule (anonymous, unstored `setTimeout`) the 5-second deferred
continuation — game over, sudden death, or next round.  In teams mode with
no winner the active team index advances immediately. -/
def endRound (rc : RoundCtrl) (st : GameState) (wasCorrect : Bool) : Step :=
  let rc1 := clearTimers rc
  let st1 := { st with phase := Phase.roundEnd }
  let isFFA := st1.settings.gameMode = GameMode.ffa
  let teamName := if isFFA then "" else ((st1.teams.get? st1.activeTeamIndex).map Team.name).getD ""
  let resultMsg := Msg.roundResult rc.currentWord wasCorrect st1.activeTeamIndex teamName
  if isFFA then
    let winners := checkFFAWinCondition st1
    if winners.length = 1 then
      { rc := rc1, st := st1, out := [Emission.broadcast resultMsg]
        armed := [TimerKind.roundEndDelay], deferred := [Deferred.ffaGameOver winners] }
    else if winners.length > 1 then
      { rc := rc1, st := st1, out := [Emission.broadcast resultMsg]
        armed := [TimerKind.roundEndDelay], deferred := [Deferred.suddenDeath winners] }
    else
      { rc := rc1, st := st1, out := [Emission.broadcast resultMsg]
        armed := [TimerKind.roundEndDelay], deferred := [Deferred.nextRound] }
  else
    let winner := checkWinCondition st1
    if winner ≠ -1 then
      { rc := rc1, st := st1, out := [Emission.broadcast resultMsg]
        armed := [TimerKind.roundEndDelay], deferred := [Deferred.teamsGameOver winner] }
    else
      let st2 := { st1 with activeTeamIndex := (st1.activeTeamIndex + 1) % st1.teams.length }
      { rc := rc1, st := st2, out := [Emission.broadcast resultMsg]
        armed := [TimerKind.roundEndDelay], deferred := [Deferred.nextRound] }

/-- Embedding of `processGuess`: normalize the guess (`trim` then `toLowerCase`) and
compare it with the lower-cased (not trimmed) secret word; always log one
`GuessEntry` whose text is the placeholder on a correct guess; on a correct
guess broadcast `correctGuess` and end the round (or the sudden-death
game).  Returns the step and the `isCorrect` result. -/
def processGuess (rc : RoundCtrl) (st : GameState)
    (playerId nickname guessText : String) (now : Nat) : Step × Bool :=
  let normalized := jsToLower (jsTrim guessText)
  let answer := jsToLower rc.currentWord
  let isCorrect := normalized = answer
  let entry : GuessEntry :=
    { playerId := playerId, nickname := nickname
      text := if isCorrect then "✓ Correct!" else guessText
      isCorrect := isCorrect, timestamp := now }
  let st1 := { st with guesses := st.guesses ++ [entry] }
  if isCorrect then
    let congrats := Emission.broadcast (Msg.correctGuess playerId nickname rc.currentWord)
    match st1.settings.gameMode with
    | GameMode.ffa =>
      if st1.isSuddenDeath then
        let s := endSuddenDeathWin rc st1 playerId
        ({ s with out := congrats :: s.out }, true)
      else
        let st2 := awardPlayerPoint st1 playerId
        let s := endRound rc st2 true
        ({ s with out := congrats :: s.out }, true)
    | GameMode.teams =>
      let st2 := awardPoint st1 st1.activeTeamIndex
      let s := endRound rc st2 true
      ({ s with out := congrats :: s.out }, true)
  else
    ({ rc := rc, st := st1 }, false)

/-- Embedding of `selectWord`: reject an out-of-range index, otherwise cancel timers,
fix the secret word from the cached choices, publish the masked hint, move
to drawing, send the secret word to the drawer only, and arm the stored
1-second tick and 20-second hint-reveal timers.  `clients` is the room's
connected session-id list. -/
def selectWord (rc : RoundCtrl) (st : GameState) (clients : List String) (index : Int) : Step :=
  if index < 0 ∨ index ≥ (rc.wordChoicesCache.length : Int) then
    { rc := rc, st := st }
  else
    let rc1 := clearTimers rc
    let w := rc.wordChoicesCache.getD index.toNat ""
    let rc2 := { rc1 with
                   currentWord := w
                   timer := some TimerKind.tick
                   hintTimer := some TimerKind.hint }
    let st1 := { st with
                   wordHint := generateHint w
                   timeRemaining := (st.settings.drawTime : Int)
                   phase := Phase.drawing }
    { rc := rc2, st := st1
      out := if clients.contains st.currentDrawer then
          [Emission.directed st.currentDrawer (Msg.secretWord w)]
        else []
      armed := [TimerKind.tick, TimerKind.hint] }

/-- The skip-empty-teams loop at the top of the teams branch of
`startNextRound`, bounded by `teams.length` attempts. -/
def advanceActive (teams : List Team) : Nat → Nat → Nat
  | idx, 0 => idx
  | idx, fuel + 1 =>
    match teams.get? idx with
    | some t => if t.drawerQueue ≠ [] then idx
                else advanceActive teams ((idx + 1) % teams.length) fuel
    | none => advanceActive teams ((idx + 1) % teams.length) fuel

/-- Embedding of `startNextRound`: bump the round counter, cancel timers, clear the
canvas (broadcast), reset the round data, pick the next drawer (FFA pool or
next non-empty team), assign roles, send the drawer their three word
choices, enter word-select and arm the stored 15-second auto-pick timer.
If no drawer is available the round is aborted mid-way.  `pickedWords` is
the `pickRandomWords` oracle; `clients` the room's session ids. -/
def startNextRound (rc : RoundCtrl) (st : GameState)
    (pickedWords : List String) (clients : List String) : Step :=
  let st1 := { st with currentRound := st.currentRound + 1 }
  let rc1 := clearTimers rc
  let canvas := Emission.broadcast Msg.clearCanvasMsg
  let st2 := { st1 with guesses := [], wordHint := "" }
  let rc2 := { rc1 with currentWord := "" }
  let picked : Option (String × GameState) :=
    match st2.settings.gameMode with
    | GameMode.ffa =>
      match getNextFFADrawer st2 with
      | (none, _) => none
      | (some d, st') => some (d, assignFFARoles { st' with currentDrawer := d } d)
    | GameMode.teams =>
      let idx := advanceActive st2.teams st2.activeTeamIndex st2.teams.length
      let st3 := { st2 with activeTeamIndex := idx }
      match getNextDrawer st3 idx with
      | (none, _) => none
      | (some d, st') => some (d, assignRoles { st' with currentDrawer := d } d idx)
  match picked with
  | none => { rc := rc2, st := st2, out := [canvas] }
  | some (d, st4) =>
    let rc3 := { rc2 with wordChoicesCache := pickedWords, timer := some TimerKind.autoPick }
    { rc := rc3
      st := { st4 with phase := Phase.wordSelect }
      out := canvas ::
        (if clients.contains d then [Emission.directed d (Msg.wordChoices pickedWords)] else [])
      armed := [TimerKind.autoPick] }

/-- Embedding of `startSuddenDeath`: flag sudden death, record the tied ids, reset the
round data, pick a non-tied drawer (fallback: immediate game over), assign
sudden-death roles, send word choices, enter word-select with the stored
auto-pick timer armed. -/
def startSuddenDeath (rc : RoundCtrl) (st : GameState) (tiedIds : List String)
    (pickedWords : List String) (clients : List String) : Step :=
  let rc1 := clearTimers rc
  let st1 := { st with
                 isSuddenDeath := true
                 winnerSessionIds := tiedIds
                 guesses := [], wordHint := "" }
  let rc2 := { rc1 with currentWord := "" }
  match getSuddenDeathDrawer st1 tiedIds with
  | none => { rc := rc2, st := { st1 with phase := Phase.gameOver } }
  | some d =>
    let st2 := { st1 with
                   currentDrawer := d
                   players := st1.players.map (fun (p : String × Player) =>
                     if p.2.sessionId = d then (p.1, { p.2 with role := Role.drawer })
                     else if tiedIds.contains p.2.sessionId then
                       (p.1, { p.2 with role := Role.guesser })
                     else (p.1, { p.2 with role := Role.spectator })) }
    let rc3 := { rc2 with wordChoicesCache := pickedWords, timer := some TimerKind.autoPick }
    { rc := rc3
      st := { st2 with phase := Phase.wordSelect }
      out := if clients.contains d then [Emission.directed d (Msg.wordChoices pickedWords)] else []
      armed := [TimerKind.autoPick] }

/-- Embedding of `startGame`: reset the game-level fields, reset scores (teams) or the
FFA score map plus pool (FFA), then start the first round. -/
def startGame (rc : RoundCtrl) (st : GameState)
    (pickedWords : List String) (clients : List String) : Step :=
  let st1 := { st with
                 currentRound := 0
                 activeTeamIndex := 0
                 winningTeamIndex := -1
                 isSuddenDeath := false
                 winnerSessionIds := [] }
  let st2 :=
    match st1.settings.gameMode with
    | GameMode.ffa => initFFA (resetPlayerScores st1)
    | GameMode.teams => resetScores st1
  startNextRound rc st2 pickedWords clients

/-- Execute the body of a deferred `setTimeout` callback scheduled by
`endRound`.  The source callbacks close over `this.state` and run with no
guard on the current phase. -/
def runDeferred (d : Deferred) (rc : RoundCtrl) (st : GameState)
    (pickedWords : List String) (clients : List String) : Step :=
  match d with
  | Deferred.ffaGameOver winners =>
    { rc := rc, st := { st with winnerSessionIds := winners, phase := Phase.gameOver } }
  | Deferred.suddenDeath winners => startSuddenDeath rc st winners pickedWords clients
  | Deferred.teamsGameOver winner =>
    { rc := rc, st := { st with winningTeamIndex := winner, phase := Phase.gameOver } }
  | Deferred.nextRound => startNextRound rc st pickedWords clients

/-! ## Room message handlers (`GameRoom.ts`) -/

/-- The optional `settings` payload of the `startGame` message. -/
structure PartialSettings where
  winMode : Option WinMode := none
  targetScore : Option Nat := none
  totalRounds : Option Nat := none
  drawTime : Option Nat := none
  wordCategory : Option String := none
deriving DecidableEq, Repr

/-- The settings merge of the `startGame` handler.  Each field is guarded
by JS truthiness (`if (data.settings.targetScore) ...`), so a numeric field
equal to `0` and an empty category string are not merged. -/
def mergeSettings (s : GameSettings) (p : PartialSettings) : GameSettings :=
  let s := match p.winMode with
    | some v => { s with winMode := v }
    | none => s
  let s := match p.targetScore with
    | some v => if v ≠ 0 then { s with targetScore := v } else s
    | none => s
  let s := match p.totalRounds with
    | some v => if v ≠ 0 then { s with totalRounds := v } else s
    | none => s
  let s := match p.drawTime with
    | some v => if v ≠ 0 then { s with drawTime := v } else s
    | none => s
  match p.wordCategory with
  | some v => if v ≠ "" then { s with wordCategory := v } else s
  | none => s

/-- The `startGame` message handler.  Mirrors the registered handler body:
host check, `canStartGame` check, settings merge, then a 500ms `setTimeout`
scheduling `roundCtrl.startGame` (the returned flag records that the start
was scheduled).  The handler reads the phase nowhere. -/
def handleStartGame (st : GameState) (senderId : String) (data : Option PartialSettings) :
    GameState × List Emission × Bool :=
  match assocGet st.players senderId with
  | none => (st, [Emission.directed senderId (Msg.error "Only the host can start the game.")], false)
  | some p =>
    if ¬ p.isHost then
      (st, [Emission.directed senderId (Msg.error "Only the host can start the game.")], false)
    else
      let check := canStartGame st
      if ¬ check.1 then
        (st, [Emission.directed senderId (Msg.error check.2)], false)
      else
        let st1 := match data with
          | some ps => { st with settings := mergeSettings st.settings ps }
          | none => st
        (st1, [], true)

/-- The `chat` message handler: unknown senders are dropped; a guesser
chatting during the drawing phase gets an `error`; empty or whitespace text
is dropped; otherwise the trimmed text is appended as a `ChatEntry` and,
when the log length exceeds 100, `splice(0, 50)` drops the oldest 50
entries. -/
def handleChat (st : GameState) (senderId text : String) (now : Nat) :
    GameState × List Emission :=
  match assocGet st.players senderId with
  | none => (st, [])
  | some p =>
    if p.role = Role.guesser ∧ st.phase = Phase.drawing then
      (st, [Emission.directed senderId (Msg.error "Use the guess input instead!")])
    else if jsTrim text = "" then (st, [])
    else
      let entry : ChatEntry :=
        { playerId := senderId, nickname := p.nickname, text := jsTrim text, timestamp := now }
      let msgs := st.chatMessages ++ [entry]
      let msgs := if msgs.length > 100 then msgs.drop 50 else msgs
      ({ st with chatMessages := msgs }, [])

/-! ## Helper lemmas -/

/-- An in-range `getD` is a member of the list. -/
lemma getD_mem_of_lt {l : List Nat} : ∀ {n : Nat}, n < l.length → l.getD n 0 ∈ l := by
  induction l with
  | nil => intro n h; simp at h
  | cons a t ih =>
    intro n h
    cases n with
    | zero => simp
    | succ n' =>
      rw [List.getD_cons_succ]
      exact List.mem_cons_of_mem a (ih (Nat.lt_of_succ_lt_succ h))

/-- Reference maximum of a score list (`0` for the empty list). -/
def listMax (l : List Nat) : Nat := l.foldr max 0

/-- The source's running-maximum fold (update on strict increase) computes
`max a (listMax l)`. -/
lemma foldl_runningMax (l : List Nat) : ∀ a : Nat,
    l.foldl (fun m x => if x > m then x else m) a = max a (listMax l) := by
  induction l with
  | nil => intro a; simp [listMax]
  | cons x t ih =>
    intro a
    have hstep : (if x > a then x else a) = max a x := by
      rcases Nat.lt_or_ge a x with h | h
      · simp [h, Nat.max_eq_right (Nat.le_of_lt h)]
      · simp [Nat.not_lt.mpr h, Nat.max_eq_left h]
    simp only [List.foldl_cons, hstep, ih, listMax, List.foldr_cons]
    exact Nat.max_assoc a x (t.foldr max 0)

/-- Lemma: `ffaMax` computes the maximum of the score values. -/
lemma ffaMax_eq_listMax (scores : List (String × Nat)) :
    ffaMax scores = listMax (scores.map Prod.snd) := by
  have : ffaMax scores =
      (scores.map Prod.snd).foldl (fun m x => if x > m then x else m) 0 := by
    rw [ffaMax, List.foldl_map]
  rw [this, foldl_runningMax, Nat.max_eq_right (Nat.zero_le _)]

/-- If every element of a list is `0`, its maximum is `0`. -/
lemma listMax_eq_zero {l : List Nat} (h : ∀ x ∈ l, x = 0) : listMax l = 0 := by
  induction l with
  | nil => rfl
  | cons x t ih =>
    have hx := h x (List.mem_cons_self x t)
    have ht := ih (fun y hy => h y (List.mem_cons_of_mem x hy))
    simp [listMax] at ht ⊢
    exact ⟨hx, ht⟩

/-- If every score is at most the running maximum, the strict-greater scan
never updates and returns the incoming best index. -/
lemma winnerScanGo_const (l : List Nat) : ∀ (i : Nat) (m b : Int),
    (∀ x ∈ l, (x : Int) ≤ m) → winnerScanGo l i m b = b := by
  induction l with
  | nil => intro i m b _; rfl
  | cons s rest ih =>
    intro i m b h
    have hs : ¬ ((s : Int) > m) := not_lt.mpr (h s (List.mem_cons_self s rest))
    rw [winnerScanGo, if_neg hs]
    exact ih (i + 1) m b (fun x hx => h x (List.mem_cons_of_mem s hx))

/-- When some score exceeds the running maximum, the strict-greater scan
returns the first index attaining the maximum of the remaining scores:
the returned position beats every earlier score strictly and every later
score weakly. -/
lemma winnerScanGo_firstMax (l : List Nat) : ∀ (i : Nat) (m b : Int),
    (∃ x ∈ l, m < (x : Int)) →
    ∃ k : Nat, k < l.length ∧ winnerScanGo l i m b = ((i + k : Nat) : Int) ∧
      m < (l.getD k 0 : Int) ∧
      (∀ j, j < l.length → l.getD j 0 ≤ l.getD k 0) ∧
      (∀ j, j < k → l.getD j 0 < l.getD k 0) := by
  induction l with
  | nil => intro i m b h; simp at h
  | cons s rest ih =>
    intro i m b h
    by_cases hs : m < (s : Int)
    · by_cases hr : ∃ x ∈ rest, (s : Int) < (x : Int)
      · obtain ⟨k, hk, heq, hgt, hall, hbef⟩ := ih (i + 1) (s : Int) (i : Int) hr
        refine ⟨k + 1, Nat.succ_lt_succ hk, ?_, ?_, ?_, ?_⟩
        · rw [winnerScanGo, if_pos hs, heq]
          congr 1
          omega
        · rw [List.getD_cons_succ]
          exact lt_trans hs hgt
        · intro j hj
          cases j with
          | zero =>
            rw [List.getD_cons_zero, List.getD_cons_succ]
            exact_mod_cast le_of_lt hgt
          | succ j' =>
            rw [List.getD_cons_succ, List.getD_cons_succ]
            exact hall j' (Nat.lt_of_succ_lt_succ hj)
        · intro j hj
          cases j with
          | zero =>
            rw [List.getD_cons_zero, List.getD_cons_succ]
            exact_mod_cast hgt
          | succ j' =>
            rw [List.getD_cons_succ, List.getD_cons_succ]
            exact hbef j' (Nat.lt_of_succ_lt_succ hj)
      · push_neg at hr
        refine ⟨0, Nat.succ_pos _, ?_, by rwa [List.getD_cons_zero], ?_, ?_⟩
        · rw [winnerScanGo, if_pos hs,
              winnerScanGo_const rest (i + 1) (s : Int) (i : Int) hr]
          simp
        · intro j hj
          cases j with
          | zero => exact le_refl _
          | succ j' =>
            rw [List.getD_cons_zero, List.getD_cons_succ]
            have hmem := getD_mem_of_lt (l := rest) (Nat.lt_of_succ_lt_succ hj)
            exact_mod_cast hr (rest.getD j' 0) hmem
        · intro j hj
          exact absurd hj (Nat.not_lt_zero j)
    · rw [winnerScanGo, if_neg hs]
      have h' : ∃ x ∈ rest, m < (x : Int) := by
        obtain ⟨x, hx, hmx⟩ := h
        rcases List.mem_cons.mp hx with hhead | htail
        · exact absurd (hhead ▸ hmx) hs
        · exact ⟨x, htail, hmx⟩
      obtain ⟨k, hk, heq, hgt, hall, hbef⟩ := ih (i + 1) m b h'
      have hsk : (s : Int) < (rest.getD k 0 : Int) := lt_of_le_of_lt (not_lt.mp hs) hgt
      refine ⟨k + 1, Nat.succ_lt_succ hk, ?_, ?_, ?_, ?_⟩
      · rw [heq]
        congr 1
        omega
      · rw [List.getD_cons_succ]
        exact hgt
      · intro j hj
        cases j with
        | zero =>
          rw [List.getD_cons_zero, List.getD_cons_succ]
          exact_mod_cast le_of_lt hsk
        | succ j' =>
          rw [List.getD_cons_succ, List.getD_cons_succ]
          exact hall j' (Nat.lt_of_succ_lt_succ hj)
      · intro j hj
        cases j with
        | zero =>
          rw [List.getD_cons_zero, List.getD_cons_succ]
          exact_mod_cast hsk
        | succ j' =>
          rw [List.getD_cons_succ, List.getD_cons_succ]
          exact hbef j' (Nat.lt_of_succ_lt_succ hj)

/-- Lemma: `checkFFAWinCondition` reads no phase, so `endRound`'s phase flip does
not affect it. -/
lemma checkFFAWinCondition_phase (st : GameState) (p : Phase) :
    checkFFAWinCondition { st with phase := p } = checkFFAWinCondition st := rfl

/-- Predicate: `k` is the lowest index of a maximal entry of `scores`. -/
def isLowestMaxIdx (scores : List Nat) (k : Nat) : Prop :=
  k < scores.length ∧
  (∀ j, j < scores.length → scores.getD j 0 ≤ scores.getD k 0) ∧
  (∀ j, j < k → scores.getD j 0 < scores.getD k 0)

/-! ## Claim theorems -/

/-- C5. `checkFFAWinCondition` returns exactly the session ids whose
score equals the maximum of `playerScores`, except that it returns the
empty list when (points mode) the maximum is below `targetScore`, or
(rounds mode) `currentRound < totalRounds`, or the maximum is `0`; and the
tie case (two or more winners) is what makes `endRound` schedule sudden
death. -/
theorem checkFFAWinCondition_winners :
    (∀ (st : GameState) (sid : String),
      sid ∈ checkFFAWinCondition st ↔
        ((st.settings.winMode = WinMode.points →
            st.settings.targetScore ≤ listMax (st.playerScores.map Prod.snd)) ∧
         (st.settings.winMode = WinMode.rounds →
            st.settings.totalRounds ≤ st.currentRound) ∧
         listMax (st.playerScores.map Prod.snd) ≠ 0 ∧
         ∃ p ∈ st.playerScores, p.1 = sid ∧
           p.2 = listMax (st.playerScores.map Prod.snd))) ∧
    (∀ (rc : RoundCtrl) (st : GameState) (w : Bool),
      st.settings.gameMode = GameMode.ffa →
      1 < (checkFFAWinCondition st).length →
      (endRound rc st w).deferred = [Deferred.suddenDeath (checkFFAWinCondition st)]) := by
  constructor
  · intro st sid
    simp only [checkFFAWinCondition, ffaMax_eq_listMax]
    cases hm : st.settings.winMode with
    | points =>
      simp only [hm, eq_self_iff_true, forall_const, reduceCtorEq, false_implies, true_and]
      by_cases hg : listMax (st.playerScores.map Prod.snd) < st.settings.targetScore
      · rw [if_pos (decide_eq_true_eq.mpr hg)]
        simp only [List.not_mem_nil, false_iff]
        rintro ⟨h1, -⟩
        omega
      · rw [if_neg (fun h => hg (decide_eq_true_eq.mp h))]
        by_cases hz : listMax (st.playerScores.map Prod.snd) = 0
        · rw [if_pos hz]
          simp [hz]
        · rw [if_neg hz]
          simp only [List.mem_map, List.mem_filter, decide_eq_true_eq]
          constructor
          · rintro ⟨p, ⟨hp, hps⟩, hsid⟩
            exact ⟨not_lt.mp hg, hz, p, hp, hsid, hps⟩
          · rintro ⟨-, -, p, hp, hsid, hscore⟩
            exact ⟨p, ⟨hp, hscore⟩, hsid⟩
    | rounds =>
      simp only [hm, eq_self_iff_true, forall_const, reduceCtorEq, false_implies, true_and]
      by_cases hg : st.currentRound < st.settings.totalRounds
      · rw [if_pos (decide_eq_true_eq.mpr hg)]
        simp only [List.not_mem_nil, false_iff]
        rintro ⟨h1, -⟩
        omega
      · rw [if_neg (fun h => hg (decide_eq_true_eq.mp h))]
        by_cases hz : listMax (st.playerScores.map Prod.snd) = 0
        · rw [if_pos hz]
          simp [hz]
        · rw [if_neg hz]
          simp only [List.mem_map, List.mem_filter, decide_eq_true_eq]
          constructor
          · rintro ⟨p, ⟨hp, hps⟩, hsid⟩
            exact ⟨not_lt.mp hg, hz, p, hp, hsid, hps⟩
          · rintro ⟨-, -, p, hp, hsid, hscore⟩
            exact ⟨p, ⟨hp, hscore⟩, hsid⟩
  · intro rc st w hffa hlen
    have h1 : ¬ ((checkFFAWinCondition st).length = 1) := by omega
    simp only [endRound]
    rw [if_pos (show ({ st with phase := Phase.roundEnd } : GameState).settings.gameMode
      = GameMode.ffa from hffa)]
    rw [show checkFFAWinCondition { st with phase := Phase.roundEnd }
      = checkFFAWinCondition st from rfl]
    rw [if_neg h1, if_pos hlen]

def rcC5 : RoundCtrl := { currentWord := "owl" }

def stC5 : GameState :=
  { phase := Phase.drawing
    settings := { gameMode := GameMode.ffa, winMode := WinMode.points, targetScore := 1 }
    playerScores := [("A", 1), ("B", 1), ("C", 0)] }

/-- Witness for C5: a two-way tie at the target score makes `endRound`
schedule sudden death with exactly the tied ids. -/
theorem checkFFAWinCondition_winners_witness :
    (endRound rcC5 stC5 true).deferred = [Deferred.suddenDeath (checkFFAWinCondition stC5)] :=
  checkFFAWinCondition_winners.2 rcC5 stC5 true rfl (by decide)

/-- C6. In rounds mode, once `currentRound ≥ totalRounds`,
`checkWinCondition` returns the lowest team index whose score is maximal
(the strict-greater scan stops updating on ties); before that it returns
`-1`. -/
theorem checkWinCondition_roundsMode :
    ∀ st : GameState, st.settings.winMode = WinMode.rounds →
      (st.settings.totalRounds ≤ st.currentRound → st.teams ≠ [] →
        0 ≤ checkWinCondition st ∧
        isLowestMaxIdx (st.teams.map (fun t => t.score)) (checkWinCondition st).toNat) ∧
      (st.currentRound < st.settings.totalRounds → checkWinCondition st = -1) := by
  intro st hmode
  constructor
  · intro hcr hne
    have hlen : (st.teams.map (fun t => t.score)).length ≠ 0 := by
      simpa using fun h => hne (List.eq_nil_of_length_eq_zero h)
    have hex : ∃ x : Nat, x ∈ st.teams.map (fun t => t.score) ∧ (-1 : Int) < (x : Int) := by
      cases hs : st.teams.map (fun t => t.score) with
      | nil => rw [hs] at hlen; simp at hlen
      | cons a l =>
        exact ⟨a, List.mem_cons_self a l, by omega⟩
    obtain ⟨k, hk, heq, _, hall, hbef⟩ :=
      winnerScanGo_firstMax (st.teams.map (fun t => t.score)) 0 (-1) (-1) hex
    have hcw : checkWinCondition st = (k : Int) := by
      rw [checkWinCondition, hmode, if_pos hcr, winnerScan, heq]
      simp
    rw [hcw]
    refine ⟨Int.natCast_nonneg k, ?_⟩
    rw [Int.toNat_natCast]
    exact ⟨hk, hall, hbef⟩
  · intro hlt
    rw [checkWinCondition, hmode, if_neg (not_le.mpr hlt)]

def stC6 : GameState :=
  { settings := { gameMode := GameMode.teams, winMode := WinMode.rounds, totalRounds := 2 }
    currentRound := 2
    teams := [{ name := "Team Blaze", score := 1 },
              { name := "Team Wave", score := 2 },
              { name := "Team Volt", score := 2 }] }

/-- Witness for C6: with scores `[1, 2, 2]` after the final round, the
winner is team 1, the lowest maximal index. -/
theorem checkWinCondition_roundsMode_witness :
    0 ≤ checkWinCondition stC6 ∧
    isLowestMaxIdx (stC6.teams.map (fun t => t.score)) (checkWinCondition stC6).toNat :=
  (checkWinCondition_roundsMode stC6 rfl).1 (by decide) (by decide)

/-- C10. In rounds mode with at least one team, once
`currentRound ≥ totalRounds` the teams scan never returns `-1` — with every
score `0` it declares team 0 the winner — while the FFA check returns no
winner when every score is `0`. -/
theorem checkWinCondition_zeroScores :
    (∀ st : GameState, st.settings.winMode = WinMode.rounds → st.teams ≠ [] →
       st.settings.totalRounds ≤ st.currentRound → checkWinCondition st ≠ -1) ∧
    (∀ st : GameState, st.settings.winMode = WinMode.rounds → st.teams ≠ [] →
       st.settings.totalRounds ≤ st.currentRound → (∀ t ∈ st.teams, t.score = 0) →
       checkWinCondition st = 0) ∧
    (∀ st : GameState, (∀ p ∈ st.playerScores, p.2 = 0) →
       checkFFAWinCondition st = []) := by
  refine ⟨?_, ?_, ?_⟩
  · intro st hmode hne hcr
    have h := ((checkWinCondition_roundsMode st hmode).1 hcr hne).1
    omega
  · intro st hmode hne hcr hz
    obtain ⟨h0, hk, _, hbef⟩ := (checkWinCondition_roundsMode st hmode).1 hcr hne
    have hzero : ∀ j, j < (st.teams.map (fun t => t.score)).length →
        (st.teams.map (fun t => t.score)).getD j 0 = 0 := by
      intro j hj
      have := getD_mem_of_lt (l := st.teams.map (fun t => t.score)) hj
      rw [List.mem_map] at this
      obtain ⟨t, ht, hts⟩ := this
      rw [← hts]
      exact hz t ht
    by_contra hne0
    have hpos : 0 < (checkWinCondition st).toNat := by omega
    have := hbef 0 hpos
    rw [hzero 0 (by omega), hzero (checkWinCondition st).toNat hk] at this
    omega
  · intro st hz
    have hmax : ffaMax st.playerScores = 0 := by
      rw [ffaMax_eq_listMax]
      refine listMax_eq_zero ?_
      intro x hx
      rw [List.mem_map] at hx
      obtain ⟨p, hp, hps⟩ := hx
      rw [← hps]
      exact hz p hp
    unfold checkFFAWinCondition
    rw [hmax]
    cases hm : st.settings.winMode with
    | points =>
      by_cases hg : 0 < st.settings.targetScore
      · simp [hg]
      · simp [hg]
    | rounds =>
      by_cases hg : st.currentRound < st.settings.totalRounds
      · simp [hg]
      · simp [hg]

def stC10 : GameState :=
  { settings := { gameMode := GameMode.teams, winMode := WinMode.rounds, totalRounds := 1 }
    currentRound := 1
    teams := [{ name := "Team Blaze", score := 0 }, { name := "Team Wave", score := 0 }] }

def stC10f : GameState :=
  { settings := { gameMode := GameMode.ffa, winMode := WinMode.rounds, totalRounds := 1 }
    currentRound := 1
    playerScores := [("A", 0), ("B", 0)] }

/-- Witness for C10: all-zero teams after the final round still produce
winner team 0, while all-zero FFA scores produce no winner. -/
theorem checkWinCondition_zeroScores_witness :
    checkWinCondition stC10 ≠ -1 ∧ checkWinCondition stC10 = 0 ∧
    checkFFAWinCondition stC10f = [] :=
  ⟨checkWinCondition_zeroScores.1 stC10 rfl (by decide) (by decide),
   checkWinCondition_zeroScores.2.1 stC10 rfl (by decide) (by decide) (by decide),
   checkWinCondition_zeroScores.2.2 stC10f (by decide)⟩

/-- Every word in the bank is free of leading and trailing whitespace, so
trimming it is the identity. -/
lemma allBankWords_trim : ∀ w ∈ allBankWords, jsTrim w = w := by
  have h : allBankWords.all (fun w => jsTrim w == w) = true := by decide
  rw [List.all_eq_true] at h
  intro w hw
  exact eq_of_beq (h w hw)

/-- Lemma: `endRound` never touches the guess log, the players map or
`currentDrawer`, and always lands in `round-end`. -/
lemma endRound_preserves (rc : RoundCtrl) (st : GameState) (w : Bool) :
    (endRound rc st w).st.guesses = st.guesses ∧
    (endRound rc st w).st.players = st.players ∧
    (endRound rc st w).st.currentDrawer = st.currentDrawer ∧
    (endRound rc st w).st.phase = Phase.roundEnd := by
  refine ⟨?_, ?_, ?_, ?_⟩ <;>
    (simp only [endRound]; repeat' split) <;> rfl

/-- C7. `processGuess` judges a guess correct exactly when the
trimmed-and-lower-cased guess equals the trimmed-and-lower-cased secret
word (for bank words trimming the secret is the identity, so the source's
trim-free comparison of the secret coincides), and it always appends
exactly one `GuessEntry`, with the placeholder text on a correct guess and
the raw guess text otherwise. -/
theorem processGuess_normalization :
    ∀ (rc : RoundCtrl) (st : GameState) (pid nick text : String) (now : Nat),
      rc.currentWord ∈ allBankWords →
      (((processGuess rc st pid nick text now).2 = true ↔
          jsToLower (jsTrim text) = jsToLower (jsTrim rc.currentWord)) ∧
       (processGuess rc st pid nick text now).1.st.guesses =
         st.guesses ++
           [{ playerId := pid, nickname := nick
              text := if (processGuess rc st pid nick text now).2 then "✓ Correct!" else text
              isCorrect := (processGuess rc st pid nick text now).2
              timestamp := now }]) := by
  intro rc st pid nick text now hw
  have htrim : jsTrim rc.currentWord = rc.currentWord := allBankWords_trim _ hw
  by_cases hc : jsToLower (jsTrim text) = jsToLower rc.currentWord
  · have h2 : (processGuess rc st pid nick text now).2 = true := by
      simp only [processGuess]
      rw [if_pos hc]
      cases hg : st.settings.gameMode
      · simp [hg]
      · cases hsd : st.isSuddenDeath <;> simp [hg, hsd]
    refine ⟨by rw [htrim]; simp [h2, hc], ?_⟩
    rw [h2, if_pos rfl]
    simp only [processGuess]
    rw [if_pos hc]
    cases hg : st.settings.gameMode
    · simp only [hg]
      rw [(endRound_preserves _ _ _).1]
      simp [hc, awardPoint]
    · cases hsd : st.isSuddenDeath
      · simp only [hg, hsd, Bool.false_eq_true, if_false]
        rw [(endRound_preserves _ _ _).1]
        simp [hc, awardPlayerPoint]
      · simp only [hg, hsd, if_true]
        simp [hc, endSuddenDeathWin]
  · have h2 : (processGuess rc st pid nick text now).2 = false := by
      simp only [processGuess]
      rw [if_neg hc]
    refine ⟨by rw [htrim]; simp [h2, hc], ?_⟩
    rw [h2]
    simp only [Bool.false_eq_true, if_false]
    simp only [processGuess]
    rw [if_neg hc]
    simp [hc]

def rcC7 : RoundCtrl := { currentWord := "pizza" }

def stC7 : GameState :=
  { phase := Phase.drawing
    settings := { gameMode := GameMode.ffa, winMode := WinMode.points, targetScore := 10 }
    playerScores := [("B", 0)] }

/-- Witness for C7: guessing `" PIZZA "` against the secret `"pizza"` is
judged correct and logged with the placeholder text. -/
theorem processGuess_normalization_witness :
    ((processGuess rcC7 stC7 "B" "Bob" " PIZZA " 42).2 = true ↔
       jsToLower (jsTrim " PIZZA ") = jsToLower (jsTrim rcC7.currentWord)) ∧
    (processGuess rcC7 stC7 "B" "Bob" " PIZZA " 42).1.st.guesses =
      stC7.guesses ++
        [{ playerId := "B", nickname := "Bob"
           text := if (processGuess rcC7 stC7 "B" "Bob" " PIZZA " 42).2 then "✓ Correct!" else " PIZZA "
           isCorrect := (processGuess rcC7 stC7 "B" "Bob" " PIZZA " 42).2
           timestamp := 42 }] :=
  processGuess_normalization rcC7 stC7 "B" "Bob" " PIZZA " 42 (by decide)

/-- C1, amended. The `startGame` handler enforces no phase guard: its
outcome is the same in every phase — the message is accepted (settings
merged, start scheduled) exactly when the sender is the host and
`canStartGame` passes, and the handler's result is phase-independent apart
from carrying the phase through. -/
theorem handleStartGame_no_phase_guard :
    ∀ (st : GameState) (ph : Phase) (sid : String) (d : Option PartialSettings),
      (handleStartGame { st with phase := ph } sid d).1 =
        { (handleStartGame st sid d).1 with phase := ph } ∧
      (handleStartGame { st with phase := ph } sid d).2 =
        (handleStartGame st sid d).2 := by
  intro st ph sid d
  simp only [handleStartGame]
  rw [show assocGet ({ st with phase := ph } : GameState).players sid
    = assocGet st.players sid from rfl]
  rw [show canStartGame { st with phase := ph } = canStartGame st from rfl]
  cases hp : assocGet st.players sid with
  | none => exact ⟨rfl, rfl⟩
  | some p =>
    dsimp only
    split_ifs with h1 h2 <;> cases d <;> exact ⟨rfl, rfl⟩

def stC1 : GameState :=
  { phase := Phase.drawing
    players :=
      [("H", { sessionId := "H", nickname := "Hana", teamIndex := 0,
               role := Role.drawer, isHost := true }),
       ("B", { sessionId := "B", nickname := "Ben", teamIndex := 1,
               role := Role.guesser })]
    teams := [{ name := "Team Blaze", drawerQueue := ["H"] },
              { name := "Team Wave", drawerQueue := ["B"] }]
    currentDrawer := "H" }

/-- C1, counterexample. In the `drawing` phase — not lobby or
team-select — a host `startGame` message is still accepted: the settings
merge happens and the 500ms start is scheduled, so the claimed phase guard
does not exist. -/
theorem handleStartGame_accepts_in_drawing :
    stC1.phase = Phase.drawing ∧
    (handleStartGame stC1 "H" (some { targetScore := some 3 })).2.2 = true ∧
    (handleStartGame stC1 "H" (some { targetScore := some 3 })).1.settings.targetScore = 3 ∧
    stC1.settings.targetScore = 10 := by
  refine ⟨rfl, ?_, ?_, rfl⟩ <;> decide

/-- A correct comparison makes `processGuess` report `true`. -/
lemma processGuess_snd_true {rc : RoundCtrl} {st : GameState} {pid nick text : String}
    {now : Nat} (hc : jsToLower (jsTrim text) = jsToLower rc.currentWord) :
    (processGuess rc st pid nick text now).2 = true := by
  simp only [processGuess]
  rw [if_pos hc]
  cases hg : st.settings.gameMode
  · simp [hg]
  · cases hsd : st.isSuddenDeath <;> simp [hg, hsd]

/-- A failed comparison makes `processGuess` report `false`. -/
lemma processGuess_snd_false {rc : RoundCtrl} {st : GameState} {pid nick text : String}
    {now : Nat} (hc : ¬ jsToLower (jsTrim text) = jsToLower rc.currentWord) :
    (processGuess rc st pid nick text now).2 = false := by
  simp only [processGuess]
  rw [if_neg hc]

/-- Lemma: `endRound` emits exactly one message: the `roundResult` broadcast. -/
lemma endRound_out (rc : RoundCtrl) (st : GameState) (w : Bool) :
    ∃ wd ok ti tn, (endRound rc st w).out = [Emission.broadcast (Msg.roundResult wd ok ti tn)] := by
  simp only [endRound]
  repeat' split
  all_goals exact ⟨_, _, _, _, rfl⟩

/-- Characters of a space-join all come from the joined strings or are the
joining space. -/
lemma jsJoinSpace_chars (P : Char → Prop) (hspace : P ' ') :
    ∀ l : List String, (∀ s ∈ l, ∀ c ∈ s.data, P c) → ∀ c ∈ (jsJoinSpace l).data, P c := by
  intro l
  induction l with
  | nil =>
    intro _ c hc
    exact absurd hc (List.not_mem_nil c)
  | cons s rest ih =>
    cases rest with
    | nil =>
      intro h c hc
      exact h s (List.mem_singleton_self s) c hc
    | cons t ts =>
      intro h c hc
      have hdata : (jsJoinSpace (s :: t :: ts)).data =
          s.data ++ (' ' :: (jsJoinSpace (t :: ts)).data) := by
        show (s ++ " " ++ jsJoinSpace (t :: ts)).data = _
        rw [String.data_append, String.data_append, List.append_assoc]
        rfl
      rw [hdata] at hc
      rcases List.mem_append.mp hc with h1 | h2
      · exact h s (List.mem_cons_self s _) c h1
      · rcases List.mem_cons.mp h2 with rfl | h3
        · exact hspace
        · exact ih (fun u hu => h u (List.mem_cons_of_mem s hu)) c h3

/-- The initial hint is fully masked: every character is an underscore or a
space, so no letter of the word is visible. -/
lemma generateHint_masked (w : String) : ∀ c ∈ (generateHint w).data, c = '_' ∨ c = ' ' := by
  refine jsJoinSpace_chars _ (Or.inr rfl) _ ?_
  intro s hs c hc
  rw [List.mem_map] at hs
  obtain ⟨ch, _, hch⟩ := hs
  rw [← hch] at hc
  by_cases h : ch = ' '
  · rw [if_pos h] at hc
    right
    simpa using hc
  · rw [if_neg h] at hc
    left
    simpa using hc

/-- C2, amended. Until the round is decided the secret word reaches no
client but the drawer: an incorrect guess emits nothing; every message
`processGuess` emits is a `correctGuess` or `roundResult` broadcast, sent
only on the correct guess that decides the round; `selectWord` emits only
the directed `secretWord` message to the current drawer; and the replicated
`wordHint` written at word selection is fully masked. -/
theorem secretWord_flow :
    (∀ (rc : RoundCtrl) (st : GameState) (pid nick text : String) (now : Nat),
      ((processGuess rc st pid nick text now).2 = false →
        (processGuess rc st pid nick text now).1.out = []) ∧
      (∀ e ∈ (processGuess rc st pid nick text now).1.out,
        ∃ m, e = Emission.broadcast m ∧
          ((∃ a b wd, m = Msg.correctGuess a b wd) ∨
           (∃ wd ok ti tn, m = Msg.roundResult wd ok ti tn)))) ∧
    (∀ (rc : RoundCtrl) (st : GameState) (clients : List String) (index : Int),
      ∀ e ∈ (selectWord rc st clients index).out,
        ∃ wd, e = Emission.directed st.currentDrawer (Msg.secretWord wd)) ∧
    (∀ w : String, ∀ c ∈ (generateHint w).data, c = '_' ∨ c = ' ') := by
  refine ⟨?_, ?_, generateHint_masked⟩
  · intro rc st pid nick text now
    constructor
    · intro hfalse
      by_cases hc : jsToLower (jsTrim text) = jsToLower rc.currentWord
      · rw [processGuess_snd_true hc] at hfalse
        cases hfalse
      · simp only [processGuess]
        rw [if_neg hc]
    · intro e he
      by_cases hc : jsToLower (jsTrim text) = jsToLower rc.currentWord
      · simp only [processGuess] at he
        rw [if_pos hc] at he
        cases hg : st.settings.gameMode
        · simp only [hg] at he
          obtain ⟨wd, ok, ti, tn, hout⟩ := endRound_out rc _ true
          rw [hout] at he
          rcases List.mem_cons.mp he with rfl | h2
          · exact ⟨_, rfl, Or.inl ⟨pid, nick, rc.currentWord, rfl⟩⟩
          · rw [List.mem_singleton.mp h2]
            exact ⟨_, rfl, Or.inr ⟨wd, ok, ti, tn, rfl⟩⟩
        · cases hsd : st.isSuddenDeath
          · simp only [hg, hsd, Bool.false_eq_true, if_false] at he
            obtain ⟨wd, ok, ti, tn, hout⟩ := endRound_out rc _ true
            rw [hout] at he
            rcases List.mem_cons.mp he with rfl | h2
            · exact ⟨_, rfl, Or.inl ⟨pid, nick, rc.currentWord, rfl⟩⟩
            · rw [List.mem_singleton.mp h2]
              exact ⟨_, rfl, Or.inr ⟨wd, ok, ti, tn, rfl⟩⟩
          · simp only [hg, hsd, if_true] at he
            rw [List.mem_singleton.mp he]
            exact ⟨_, rfl, Or.inl ⟨pid, nick, rc.currentWord, rfl⟩⟩
      · have hout : (processGuess rc st pid nick text now).1.out = [] := by
          simp only [processGuess]
          rw [if_neg hc]
        rw [hout] at he
        exact absurd he (List.not_mem_nil e)
  · intro rc st clients index e he
    simp only [selectWord] at he
    split_ifs at he with hidx hcl
    · exact absurd he (List.not_mem_nil e)
    · rw [List.mem_singleton.mp he]
      exact ⟨_, rfl⟩
    · exact absurd he (List.not_mem_nil e)

def rcC2 : RoundCtrl :=
  { currentWord := "pizza", timer := some TimerKind.tick, hintTimer := some TimerKind.hint }

def stC2 : GameState :=
  { phase := Phase.drawing
    players := [("A", { sessionId := "A", nickname := "Ann", teamIndex := 0,
                        role := Role.drawer }),
                ("B", { sessionId := "B", nickname := "Bob", teamIndex := 0,
                        role := Role.guesser })]
    teams := [{ name := "FFA", drawerQueue := ["B", "A"] }]
    settings := { gameMode := GameMode.ffa, winMode := WinMode.points, targetScore := 10 }
    currentDrawer := "A"
    playerScores := [("A", 0), ("B", 0)] }

/-- C2, counterexample. A correct guess makes the server broadcast the
secret word to every client — inside `correctGuess` — so the word does
appear in a broadcast, not only in the directed `secretWord` message. -/
theorem correctGuess_broadcast_contains_word :
    rcC2.currentWord = "pizza" ∧
    Emission.broadcast (Msg.correctGuess "B" "Bob" "pizza") ∈
      (processGuess rcC2 stC2 "B" "Bob" "pizza" 42).1.out := by
  exact ⟨rfl, by decide⟩

def rcSel2 : RoundCtrl := { wordChoicesCache := ["owl", "fox", "bat"] }

def stSel2 : GameState := { phase := Phase.wordSelect, currentDrawer := "A" }

/-- Witness for the amended C2: an incorrect guess emits nothing, the one
`selectWord` emission is the directed `secretWord` to the drawer, and the
underscore is a legal masked-hint character. -/
theorem secretWord_flow_witness :
    (processGuess rcC2 stC2 "B" "Bob" "nope" 1).1.out = [] ∧
    (∃ wd, Emission.directed "A" (Msg.secretWord "fox") =
       Emission.directed stSel2.currentDrawer (Msg.secretWord wd)) ∧
    ('_' = '_' ∨ '_' = ' ') :=
  ⟨(secretWord_flow.1 rcC2 stC2 "B" "Bob" "nope" 1).1 (by decide),
   secretWord_flow.2.1 rcSel2 stSel2 ["A"] 1
     (Emission.directed "A" (Msg.secretWord "fox")) (by decide),
   secretWord_flow.2.2 "owl" '_' (by decide)⟩

/-- Keyed updates through `map` commute with association-list lookup. -/
lemma assocGet_map_if (l : List (String × Player)) (sid : String) (f : Player → Player) :
    assocGet (l.map (fun p => if p.1 = sid then (p.1, f p.2) else p)) sid =
      (assocGet l sid).map f := by
  induction l with
  | nil => rfl
  | cons a t ih =>
    simp only [List.map_cons]
    by_cases h : a.1 = sid
    · rw [if_pos h]
      unfold assocGet
      rw [List.find?_cons_of_pos _ (by simp [h]), List.find?_cons_of_pos _ (by simp [h])]
      rfl
    · rw [if_neg h]
      unfold assocGet
      rw [List.find?_cons_of_neg _ (by simp [h]), List.find?_cons_of_neg _ (by simp [h])]
      exact ih

/-- The drawer half of spec invariant 2: `currentDrawer` resolves to an
existing, connected player. -/
def drawerConnectedB (st : GameState) : Bool :=
  ((assocGet st.players st.currentDrawer).map Player.isConnected).getD false

/-- The phase half of spec invariant 2. -/
def phaseActiveB (st : GameState) : Bool :=
  st.phase == Phase.wordSelect || st.phase == Phase.drawing

/-- Spec invariant 2 as stated: the drawer resolves iff the phase is
word-select or drawing. -/
def drawerPhaseInvariant (st : GameState) : Bool :=
  drawerConnectedB st == phaseActiveB st

def rcC3 : RoundCtrl := { currentWord := "owl" }

def stC3 : GameState :=
  { phase := Phase.drawing
    players :=
      [("A", { sessionId := "A", nickname := "Ann", teamIndex := 0, role := Role.drawer }),
       ("B", { sessionId := "B", nickname := "Bob", teamIndex := 0, role := Role.guesser }),
       ("C", { sessionId := "C", nickname := "Cid", teamIndex := 1, role := Role.opponent })]
    teams := [{ name := "Team Blaze", drawerQueue := ["B", "A"] },
              { name := "Team Wave", drawerQueue := ["C"] }]
    currentDrawer := "A" }

/-- C3, counterexample. `endRound` moves the phase to `round-end`
without clearing `currentDrawer`, so immediately after this handled event
the drawer still resolves to an existing connected player while the phase
is outside word-select/drawing: the claimed iff-invariant is violated. -/
theorem drawerPhaseInvariant_broken_by_endRound :
    drawerPhaseInvariant stC3 = true ∧
    (endRound rcC3 stC3 false).st.phase = Phase.roundEnd ∧
    drawerPhaseInvariant (endRound rcC3 stC3 false).st = false := by
  decide

/-- C3, amended. No handler re-establishes the drawer/phase relation:
`endRound` enters round-end leaving `currentDrawer` and the players map
untouched (so the ex-drawer still resolves, falsifying the only-if
direction), and a disconnect merely flips the player's `isConnected` flag
while preserving `currentDrawer` and the phase (falsifying the if direction
during word-select/drawing). -/
theorem drawerPhase_not_reestablished :
    (∀ (rc : RoundCtrl) (st : GameState) (w : Bool),
       (endRound rc st w).st.currentDrawer = st.currentDrawer ∧
       (endRound rc st w).st.players = st.players ∧
       (endRound rc st w).st.phase = Phase.roundEnd) ∧
    (∀ (st : GameState) (sid : String),
       (handleDisconnect st sid).currentDrawer = st.currentDrawer ∧
       (handleDisconnect st sid).phase = st.phase ∧
       assocGet (handleDisconnect st sid).players sid =
         (assocGet st.players sid).map (fun p => { p with isConnected := false })) := by
  constructor
  · intro rc st w
    obtain ⟨-, h2, h3, h4⟩ := endRound_preserves rc st w
    exact ⟨h3, h2, h4⟩
  · intro st sid
    exact ⟨rfl, rfl, assocGet_map_if st.players sid (fun p => { p with isConnected := false })⟩

/-- Every armed timer of the call is held in one of the controller's two
handle slots (and is therefore cancellable by `clearTimers`). -/
def storesArmed (armed : List TimerKind) (rc : RoundCtrl) : Bool :=
  armed.all (fun k => rc.timer == some k || rc.hintTimer == some k)

def rcC4 : RoundCtrl :=
  { currentWord := "owl", timer := some TimerKind.tick, hintTimer := some TimerKind.hint }

def stC4 : GameState :=
  { phase := Phase.drawing
    players :=
      [("A", { sessionId := "A", nickname := "Ann", teamIndex := 0, role := Role.drawer }),
       ("B", { sessionId := "B", nickname := "Bob", teamIndex := 1, role := Role.opponent })]
    teams := [{ name := "Team Blaze", drawerQueue := ["A"] },
              { name := "Team Wave", drawerQueue := ["B"] }]
    currentDrawer := "A" }

def stC4m : GameState := { stC4 with phase := Phase.modeSelect }

def rcIdle : RoundCtrl := {}

/-- C4, counterexample. The 5-second round-end delay armed by
`endRound` is an anonymous `setTimeout`: after the call both handle slots
are `none`, so the armed timer is not paired with any stored cancellable
handle; and its next-round callback has no phase guard — run against a
state already back in `mode-select`, it still changes the state. -/
theorem roundEndDelay_unstored :
    (endRound rcC4 stC4 false).armed = [TimerKind.roundEndDelay] ∧
    storesArmed (endRound rcC4 stC4 false).armed (endRound rcC4 stC4 false).rc = false ∧
    (endRound rcC4 stC4 false).rc.timer = none ∧
    (endRound rcC4 stC4 false).rc.hintTimer = none ∧
    (endRound rcC4 stC4 false).deferred = [Deferred.nextRound] ∧
    stC4m.phase = Phase.modeSelect ∧
    (runDeferred Deferred.nextRound rcIdle stC4m ["owl", "fox", "bat"] ["A", "B"]).st ≠ stC4m := by
  decide

/-- C4, amended. The word-choice auto-pick, 1-second tick and
20-second hint timers are each stored in a controller slot when armed, and
`clearTimers` cancels both slots; but `endRound` always arms the 5-second
round-end delay with both slots empty (no stored handle), and the deferred
next-round callback is unguarded: whatever the phase, it broadcasts the
canvas clear (and mutates the round state). -/
theorem timer_handles_accounting :
    (∀ (rc : RoundCtrl) (st : GameState) (clients : List String) (index : Int),
       storesArmed (selectWord rc st clients index).armed
         (selectWord rc st clients index).rc = true) ∧
    (∀ (rc : RoundCtrl) (st : GameState) (words clients : List String),
       storesArmed (startNextRound rc st words clients).armed
         (startNextRound rc st words clients).rc = true) ∧
    (∀ (rc : RoundCtrl) (st : GameState) (tied words clients : List String),
       storesArmed (startSuddenDeath rc st tied words clients).armed
         (startSuddenDeath rc st tied words clients).rc = true) ∧
    (∀ rc : RoundCtrl, (clearTimers rc).timer = none ∧ (clearTimers rc).hintTimer = none) ∧
    (∀ (rc : RoundCtrl) (st : GameState) (w : Bool),
       (endRound rc st w).armed = [TimerKind.roundEndDelay] ∧
       (endRound rc st w).rc.timer = none ∧ (endRound rc st w).rc.hintTimer = none) ∧
    (∀ (rc : RoundCtrl) (st : GameState) (words clients : List String),
       Emission.broadcast Msg.clearCanvasMsg ∈ (startNextRound rc st words clients).out) := by
  refine ⟨?_, ?_, ?_, ?_, ?_, ?_⟩
  · intro rc st clients index
    by_cases h : index < 0 ∨ index ≥ (rc.wordChoicesCache.length : Int)
    · simp [selectWord, h, storesArmed]
    · simp [selectWord, h, storesArmed]
  · intro rc st words clients
    simp only [startNextRound]
    split <;> rfl
  · intro rc st tied words clients
    simp only [startSuddenDeath]
    split <;> rfl
  · intro rc
    exact ⟨rfl, rfl⟩
  · intro rc st w
    refine ⟨?_, ?_, ?_⟩ <;> (simp only [endRound]; repeat' split) <;> rfl
  · intro rc st words clients
    simp only [startNextRound]
    split
    · exact List.mem_singleton_self _
    · exact List.mem_cons_self _ _

def chatFill : ChatEntry := { playerId := "X", nickname := "Xan", text := "hello", timestamp := 1 }

def stC9 : GameState :=
  { phase := Phase.lobby
    players := [("A", { sessionId := "A", nickname := "Ann" })]
    chatMessages := List.replicate 100 chatFill }

/-- C9, counterexample. An accepted chat on a 100-entry log pushes the
length to 101 and `splice(0, 50)` then leaves 51 entries — not the claimed
exactly 50. -/
theorem chat_trim_leaves_51 :
    stC9.chatMessages.length = 100 ∧
    ((handleChat stC9 "A" "hi" 7).1.chatMessages).length = 51 ∧
    ¬ ((handleChat stC9 "A" "hi" 7).1.chatMessages).length = 50 := by
  decide

/-- The `ChatEntry` the chat handler builds for an accepted message. -/
def chatEntryOf (sid nickname text : String) (now : Nat) : ChatEntry :=
  { playerId := sid, nickname := nickname, text := jsTrim text, timestamp := now }

/-- C9, amended. Every accepted chat appends exactly one entry, and
when the resulting length exceeds 100 the oldest 50 entries are dropped, so
the most recent `length − 50` entries remain (51 at the trim point), the
log staying a suffix of the appended log. -/
theorem handleChat_trims_oldest (st : GameState) (sid text : String) (now : Nat) (p : Player)
    (hp : assocGet st.players sid = some p)
    (hg : ¬ (p.role = Role.guesser ∧ st.phase = Phase.drawing))
    (ht : ¬ jsTrim text = "") :
    (handleChat st sid text now).1.chatMessages =
      (st.chatMessages ++ [chatEntryOf sid p.nickname text now]).drop
        (if 100 < st.chatMessages.length + 1 then 50 else 0) ∧
    (handleChat st sid text now).1.chatMessages.length =
      (if 100 < st.chatMessages.length + 1 then st.chatMessages.length + 1 - 50
       else st.chatMessages.length + 1) ∧
    (handleChat st sid text now).1.chatMessages <:+
      (st.chatMessages ++ [chatEntryOf sid p.nickname text now]) := by
  have hmain : (handleChat st sid text now).1.chatMessages =
      (st.chatMessages ++ [chatEntryOf sid p.nickname text now]).drop
        (if 100 < st.chatMessages.length + 1 then 50 else 0) := by
    simp only [handleChat, hp, chatEntryOf]
    rw [if_neg hg, if_neg ht]
    by_cases hlen : 100 < st.chatMessages.length + 1
    · rw [if_pos hlen]
      rw [if_pos (by simpa using hlen)]
    · rw [if_neg hlen]
      rw [if_neg (by simpa using hlen), List.drop_zero]
  refine ⟨hmain, ?_, ?_⟩
  · rw [hmain]
    by_cases hlen : 100 < st.chatMessages.length + 1
    · rw [if_pos hlen, if_pos hlen, List.length_drop]
      simp
    · rw [if_neg hlen, if_neg hlen, List.drop_zero]
      simp
  · rw [hmain]
    exact List.drop_suffix _ _

def pA9 : Player := { sessionId := "A", nickname := "Ann" }

def stC9w : GameState :=
  { phase := Phase.lobby
    players := [("A", pA9)]
    chatMessages := [chatFill] }

/-- Witness for the amended C9: an accepted chat on a 1-entry log appends
the trimmed entry without dropping anything. -/
theorem handleChat_trims_oldest_witness :
    (handleChat stC9w "A" " hi " 7).1.chatMessages =
      (stC9w.chatMessages ++ [chatEntryOf "A" pA9.nickname " hi " 7]).drop
        (if 100 < stC9w.chatMessages.length + 1 then 50 else 0) ∧
    (handleChat stC9w "A" " hi " 7).1.chatMessages.length =
      (if 100 < stC9w.chatMessages.length + 1 then stC9w.chatMessages.length + 1 - 50
       else stC9w.chatMessages.length + 1) ∧
    (handleChat stC9w "A" " hi " 7).1.chatMessages <:+
      (stC9w.chatMessages ++ [chatEntryOf "A" pA9.nickname " hi " 7]) :=
  handleChat_trims_oldest stC9w "A" " hi " 7 pA9 rfl (by decide) (by decide)

/-- C8. Evaluation of the hint functions at the bank word
`"ice cream"`.  The initial hint is fully masked as claimed, but
`revealLetter` is broken on multi-word entries: joining with single spaces
and re-splitting on single spaces desynchronizes the token walk (the
double-space token becomes three empty tokens), so the hidden-position scan
skips the letters `c` and `r` of `cream` (positions 4 and 5 are missing
from `[0, 1, 2, 6, 7, 8]`), revealing the word's `e` at position 6 writes
it into the *first* slot of `cream` instead of the third, and a hint that
still shows masked slots (`"i c e    e a m _ _"`) is returned unchanged.
On single-word entries such as `"elephant"` the reveal lands at the correct
position. -/
theorem revealLetter_multiword_bug :
    generateHint "ice cream" = "_ _ _    _ _ _ _ _" ∧
    hiddenPositions "ice cream".data 0 0 (jsSplitSpace (generateHint "ice cream").data) =
      [0, 1, 2, 6, 7, 8] ∧
    revealLetter "ice cream" (generateHint "ice cream") 3 = "_ _ _    e _ _ _ _" ∧
    revealLetter "ice cream" "i c e    e a m _ _" 0 = "i c e    e a m _ _" ∧
    revealLetter "elephant" (generateHint "elephant") 2 = "_ _ e _ _ _ _ _" := by
  refine ⟨rfl, rfl, rfl, rfl, rfl⟩

end PartyGames
